import Mathlib

/-!
Verification of the core logic of the climate-analog-finder repository
(`logic.py`): multi-source ingestion of monthly climate indices into a
canonical `(Year, Month)`-keyed table (`get_climate_indices`), and the
analog-year search (`search_analog_years`).

Numeric values are modelled as exact rationals (the Python code uses
floats; all claims are about comparisons and algebraic identities that
floats realise up to rounding).  Fetched bodies are modelled as the
`String` each `requests.get(...).text` would return, with `none`
standing for a fetch that raised (network failure).
-/

namespace ClimateAnalog

set_option maxRecDepth 4000

instance {e a : Type} [DecidableEq e] [DecidableEq a] : DecidableEq (Except e a) := fun x y =>
  match x, y with
  | .ok u, .ok v =>
      if h : u = v then isTrue (by rw [h]) else isFalse (by intro hc; cases hc; exact h rfl)
  | .error u, .error v =>
      if h : u = v then isTrue (by rw [h]) else isFalse (by intro hc; cases hc; exact h rfl)
  | .ok _, .error _ => isFalse (by intro hc; cases hc)
  | .error _, .ok _ => isFalse (by intro hc; cases hc)

/-- Python `str.split()` with no argument: split on runs of whitespace,
discarding empty tokens. -/
def splitWs (s : String) : List String :=
  (s.split (fun c => c.isWhitespace)).filter (fun t => t ≠ "")

/-- Python `str.splitlines()` (modelled as splitting on a newline
character; the sources are plain `\n`-separated text files). -/
def splitLines (s : String) : List String :=
  s.splitOn "\n"

/-- Numeric value of a list of decimal digit characters. -/
def digitsVal (cs : List Char) : Nat :=
  cs.foldl (fun a c => a * 10 + (c.toNat - 48)) 0

/-- Python `str.isdigit()` (ASCII decimal digits; nonempty). -/
def isdigitStr (s : String) : Bool :=
  !s.toList.isEmpty && s.toList.all Char.isDigit

/-- Python `int(...)` on a whitespace-free token: optional sign followed
by decimal digits; `none` models a raised `ValueError`. -/
def parseInt? (s : String) : Option Int :=
  match s.toList with
  | [] => none
  | '-' :: cs =>
      if !cs.isEmpty && cs.all Char.isDigit then some (-(digitsVal cs : Int)) else none
  | '+' :: cs =>
      if !cs.isEmpty && cs.all Char.isDigit then some ((digitsVal cs : Int)) else none
  | cs =>
      if cs.all Char.isDigit then some ((digitsVal cs : Int)) else none

/-- Unsigned decimal literal: `"12"`, `"12."`, `".5"`, `"12.5"`. -/
def mantissaVal? (cs : List Char) : Option ℚ :=
  match cs.splitOn '.' with
  | [w] => if !w.isEmpty && w.all Char.isDigit then some ((digitsVal w : ℚ)) else none
  | [w, f] =>
      if !(w ++ f).isEmpty && (w ++ f).all Char.isDigit then
        some ((digitsVal w : ℚ) + (digitsVal f : ℚ) / (10 ^ f.length))
      else none
  | _ => none

/-- Python `float(...)` on a whitespace-free token, restricted to plain
decimal literals (the forms occurring in the climate data files; the
exotic accepted forms `inf`/`nan`/exponents do not occur there).
`none` models a raised `ValueError`. -/
def parseFloat? (s : String) : Option ℚ :=
  match s.toList with
  | '-' :: cs => (mantissaVal? cs).map (fun q => -q)
  | '+' :: cs => mantissaVal? cs
  | cs => mantissaVal? cs

/-- One source's missing-value rule, as the keep-condition the code
tests before storing a parsed value. -/
inductive Sentinel where
  | gtNegNinety      -- `if val > -90:` (ONI, IOD)
  | ltNinety         -- `if val < 90:`  (PDO, NinoWest)
  | gtNegNineHundred -- `if val > -900:` (QBO30, QBO50)
  | noSentinel       -- no check (NAO, PNA, AO)
deriving DecidableEq

/-- The keep-condition the code applies to a parsed value. -/
def Sentinel.keep : Sentinel → ℚ → Bool
  | .gtNegNinety, v => decide ((-90 : ℚ) < v)
  | .ltNinety, v => decide (v < (90 : ℚ))
  | .gtNegNineHundred, v => decide ((-900 : ℚ) < v)
  | .noSentinel, _ => true

/-- The three line-loop shapes occurring in `get_climate_indices`. -/
inductive ParserKind where
  | psl    -- ONI/IOD: `if parts and parts[0].isdigit() and len(parts) >= 13`
  | ncei   -- PDO: skip lines containing "Year"; `if len(parts) >= 13`; bare `int(parts[0])`
  | cpc    -- NAO/PNA/AO/QBO: `if not parts or not parts[0].isdigit(): continue`; `if m <= len(parts)-1`
  | cpcPre -- NinoWest: the cpc loop applied to the first `<pre>...</pre>` block
deriving DecidableEq

/-- A configured source: the index column it writes, its line-loop shape
and its sentinel rule. -/
structure SourceCfg where
  index : String
  kind : ParserKind
  sentinel : Sentinel
deriving DecidableEq

/-- One stored observation: `data_map[(year, m)][index] = val`. -/
structure Obs where
  year : Int
  month : Nat
  index : String
  val : ℚ
deriving DecidableEq

/-- `for m in range(1, 13)`. -/
def monthNums : List Nat := [1, 2, 3, 4, 5, 6, 7, 8, 9, 10, 11, 12]

/-- The body of each month loop: `val = float(parts[m])`, then the
sentinel keep-check, then the store; a parse failure is swallowed by the
inner `try`/`except`. -/
def monthObs (cfg : SourceCfg) (year : Int) (parts : List String) (m : Nat) : List Obs :=
  match parseFloat? (parts.getD m "") with
  | some v => if cfg.sentinel.keep v then [⟨year, m, cfg.index, v⟩] else []
  | none => []

/-- ONI/IOD line handling: accept a line iff it is nonempty, its first
token is all digits and it has at least 13 tokens; then drop years below
the cutoff and run the month loop. -/
def lineObsPsl (cfg : SourceCfg) (start : Int) (line : String) : List Obs :=
  let parts := splitWs line
  if !parts.isEmpty && isdigitStr (parts.headD "") && decide (13 ≤ parts.length) then
    let year : Int := (digitsVal (parts.headD "").toList : Nat)
    if year < start then []
    else monthNums.flatMap (monthObs cfg year parts)
  else []

/-- CPC-style line handling (NAO/PNA/AO/QBO and the NinoWest `<pre>`
body): accept a line iff its first token is all digits — with no
minimum token count; month `m` is attempted only when `m <= len(parts)-1`. -/
def lineObsCpc (cfg : SourceCfg) (start : Int) (line : String) : List Obs :=
  let parts := splitWs line
  if !parts.isEmpty && isdigitStr (parts.headD "") then
    let year : Int := (digitsVal (parts.headD "").toList : Nat)
    if year < start then []
    else monthNums.flatMap (fun m =>
      if m < parts.length then monthObs cfg year parts m else [])
  else []

/-- Python `needle in line` on strings: contiguous-substring test. -/
def containsSeq (needle : List Char) : List Char → Bool
  | [] => needle.isEmpty
  | c :: rest => needle.isPrefixOf (c :: rest) || containsSeq needle rest

/-- PDO (NCEI) line handling: lines containing `"Year"` are skipped;
a line with at least 13 tokens has `int(parts[0])` evaluated bare, so a
non-integer first token raises and the outer `except` abandons the rest
of this source (keeping the observations already stored). -/
def nceiLinesObs (cfg : SourceCfg) (start : Int) : List String → List Obs
  | [] => []
  | line :: rest =>
    if containsSeq "Year".toList line.toList then nceiLinesObs cfg start rest
    else
      let parts := splitWs line
      if decide (13 ≤ parts.length) then
        match parseInt? (parts.headD "") with
        | none => []
        | some year =>
          (if year < start then [] else monthNums.flatMap (monthObs cfg year parts))
            ++ nceiLinesObs cfg start rest
      else nceiLinesObs cfg start rest

/-- NinoWest HTML handling: the substring between the first `<pre>` and
the following `</pre>` (or end of text), stripped; `none` when no
`<pre>` occurs, in which case the source yields zero observations. -/
def preBlock? (s : String) : Option String :=
  match s.splitOn "<pre>" with
  | _ :: x :: _ => some (((x.splitOn "</pre>").headD x).trim)
  | _ => none

/-- All observations one source's fetched text produces, in store order. -/
def sourceObs (cfg : SourceCfg) (start : Int) (text : String) : List Obs :=
  match cfg.kind with
  | .psl => (splitLines text).flatMap (lineObsPsl cfg start)
  | .cpc => (splitLines text).flatMap (lineObsCpc cfg start)
  | .ncei => nceiLinesObs cfg start (splitLines text)
  | .cpcPre =>
    match preBlock? text with
    | some body => (splitLines body).flatMap (lineObsCpc cfg start)
    | none => []

/-- Per-key column map of `data_map`: insertion-ordered `index → value`. -/
abbrev IdxMap := List (String × ℚ)

/-- `data_map`: insertion-ordered `(Year, Month) → {index: value}`. -/
abbrev DataMap := List ((Int × Nat) × IdxMap)

/-- `dict` update `im[idx] = v`: overwrite in place or append. -/
def setEntry (im : IdxMap) (idx : String) (v : ℚ) : IdxMap :=
  match im with
  | [] => [(idx, v)]
  | (k, w) :: rest =>
      if k = idx then (k, v) :: rest else (k, w) :: setEntry rest idx v

/-- `if (year, m) not in data_map: data_map[(year, m)] = {}` followed by
`data_map[(year, m)][idx] = val`. -/
def setIdx (dm : DataMap) (y : Int) (m : Nat) (idx : String) (v : ℚ) : DataMap :=
  match dm with
  | [] => [((y, m), [(idx, v)])]
  | (k, im) :: rest =>
      if k = (y, m) then (k, setEntry im idx v) :: rest
      else (k, im) :: setIdx rest y m idx v

/-- Store one observation into `data_map`. -/
def applyObs (dm : DataMap) (o : Obs) : DataMap :=
  setIdx dm o.year o.month o.index o.val

/-- One source's whole `try` block: a failed fetch (or any outer
exception) leaves `data_map` as it was; a fetched body has its
observations stored in order. -/
def parseSource (cfg : SourceCfg) (start : Int) (fetched : Option String)
    (dm : DataMap) : DataMap :=
  match fetched with
  | none => dm
  | some text => (sourceObs cfg start text).foldl applyObs dm

/-- `dict` lookup in a per-key column map. -/
def imLookup : IdxMap → String → Option ℚ
  | [], _ => none
  | (k, v) :: rest, c => if k = c then some v else imLookup rest c

/-- `dict` lookup in `data_map`. -/
def dmLookup : DataMap → Int × Nat → Option IdxMap
  | [], _ => none
  | (k, im) :: rest, key => if k = key then some im else dmLookup rest key

/-- Value of a cell of `data_map`, `none` when absent. -/
def lookupVal (dm : DataMap) (y : Int) (m : Nat) (idx : String) : Option ℚ :=
  (dmLookup dm (y, m)).bind (fun im => imLookup im idx)

/-- The nine configured sources, in the order the code runs them. -/
def oniCfg : SourceCfg := ⟨"ONI", .psl, .gtNegNinety⟩

def iodCfg : SourceCfg := ⟨"IOD", .psl, .gtNegNinety⟩

def pdoCfg : SourceCfg := ⟨"PDO", .ncei, .ltNinety⟩

def ninoWestCfg : SourceCfg := ⟨"NinoWest", .cpcPre, .ltNinety⟩

def naoCfg : SourceCfg := ⟨"NAO", .cpc, .noSentinel⟩

def pnaCfg : SourceCfg := ⟨"PNA", .cpc, .noSentinel⟩

def aoCfg : SourceCfg := ⟨"AO", .cpc, .noSentinel⟩

def qbo30Cfg : SourceCfg := ⟨"QBO30", .cpc, .gtNegNineHundred⟩

def qbo50Cfg : SourceCfg := ⟨"QBO50", .cpc, .gtNegNineHundred⟩

def sourceCfgs : List SourceCfg :=
  [oniCfg, iodCfg, pdoCfg, ninoWestCfg, naoCfg, pnaCfg, aoCfg, qbo30Cfg, qbo50Cfg]

/-- Run a list of sources (each with its fetch outcome) over `data_map`. -/
def ingest (srcs : List (SourceCfg × Option String)) (start : Int) : DataMap :=
  srcs.foldl (fun dm p => parseSource p.1 start p.2 dm) []

/-- One row of the canonical table: `{'Year': y, 'Month': m, **vals}`. -/
structure Row where
  year : Int
  month : Nat
  vals : IdxMap
deriving DecidableEq

/-- The canonical table: its column list and its rows. -/
structure DataFrame where
  cols : List String
  rows : List Row
deriving DecidableEq

/-- Insert into a sorted list (stable: goes before the first element it
compares `le` to). -/
def insertBy (le : α → α → Bool) (a : α) : List α → List α
  | [] => [a]
  | b :: bs => if le a b then a :: b :: bs else b :: insertBy le a bs

/-- Stable insertion sort, modelling `DataFrame.sort_values` (tie order
among equal keys is not part of any claim). -/
def sortBy (le : α → α → Bool) : List α → List α
  | [] => []
  | a :: as => insertBy le a (sortBy le as)

/-- `sort_values(['Year', 'Month'])` comparison. -/
def rowLe (a b : Row) : Bool :=
  decide (a.year < b.year) || (decide (a.year = b.year) && decide (a.month ≤ b.month))

/-- The fixed canonical column order of `get_climate_indices`. -/
def fixedCols : List String :=
  ["Year", "Month", "ONI", "IOD", "PDO", "NinoWest", "NAO", "PNA", "AO", "QBO30", "QBO50"]

/-- `c in df.columns` for the frame built from `data_map` rows: `Year`
and `Month` always, an index column iff some row stored it. -/
def colPresent (dm : DataMap) (c : String) : Bool :=
  c == "Year" || c == "Month" || dm.any (fun e => (imLookup e.2 c).isSome)

/-- The trailing DataFrame construction: rows from `data_map`, sorted by
`(Year, Month)`, columns reordered to the fixed canonical order
restricted to the columns that exist; an empty `data_map` yields the
empty frame (the code's `if not df.empty` guard). -/
def toTable (dm : DataMap) : DataFrame :=
  if dm.isEmpty then ⟨[], []⟩
  else
    ⟨fixedCols.filter (colPresent dm),
     sortBy rowLe (dm.map (fun e => Row.mk e.1.1 e.1.2 e.2))⟩

/-- `get_climate_indices`, as a function of the nine fetch outcomes
(in source order) and the start-year cutoff (`1950` by default in the
code). -/
def get_climate_indices (fetches : List (Option String)) (start_year : Int) : DataFrame :=
  toTable (ingest (sourceCfgs.zip fetches) start_year)

/-! ## The analog search engine (`search_analog_years`) -/

/-- Reading a cell of a row: the `Year` and `Month` columns carry the
key, any other column is an index value, `none` when the row's dict has
no entry for it (a pandas `NaN`). -/
def rowVal? (r : Row) (c : String) : Option ℚ :=
  if c = "Year" then some ((r.year : ℚ))
  else if c = "Month" then some ((r.month : ℚ))
  else imLookup r.vals c

/-- `{k: v for k, v in targets.items() if k in df.columns}`. -/
def validTargets (dfCols : List String) (targets : List (String × ℚ)) :
    List (String × ℚ) :=
  targets.filter (fun p => decide (p.1 ∈ dfCols))

/-- pandas `series >= t` on one cell: `NaN` compares `False`. -/
def cellGe (x : Option ℚ) (t : ℚ) : Bool :=
  match x with
  | some v => decide (t ≤ v)
  | none => false

/-- pandas `series <= t` on one cell: `NaN` compares `False`. -/
def cellLe (x : Option ℚ) (t : ℚ) : Bool :=
  match x with
  | some v => decide (v ≤ t)
  | none => false

/-- pandas `series > t` on one cell: `NaN` compares `False`. -/
def cellGt (x : Option ℚ) (t : ℚ) : Bool :=
  match x with
  | some v => decide (t < v)
  | none => false

/-- pandas `series < t` on one cell: `NaN` compares `False`. -/
def cellLt (x : Option ℚ) (t : ℚ) : Bool :=
  match x with
  | some v => decide (v < t)
  | none => false

/-- The PDO-phase dispatch of `search_analog_years`: `'pos'`, `'neg'`
and `'0'` filter on the `PDO` cell; any other phase string leaves the
candidates untouched. -/
def pdoFilter (phase : String) (th : ℚ) (rows : List Row) : List Row :=
  if phase = "pos" then rows.filter (fun r => cellGe (rowVal? r "PDO") th)
  else if phase = "neg" then rows.filter (fun r => cellLe (rowVal? r "PDO") (-th))
  else if phase = "0" then
    rows.filter (fun r => cellGt (rowVal? r "PDO") (-th) && cellLt (rowVal? r "PDO") th)
  else rows

/-- Steps 2–4 of the search: month filter, `dropna` over the required
columns that exist in the frame (all target keys, plus `PDO` whenever
the frame has a `PDO` column), then the PDO-phase filter (applied only
when the frame has a `PDO` column). -/
def eligibleCandidates (df : DataFrame) (target_month : Nat)
    (targets : List (String × ℚ)) (phase : String) (th : ℚ) : List Row :=
  let candidates := df.rows.filter (fun r => r.month == target_month)
  let requiredCols :=
    targets.map Prod.fst ++ (if "PDO" ∈ df.cols then ["PDO"] else [])
  let subset := requiredCols.filter (fun c => decide (c ∈ df.cols))
  let candidates := candidates.filter (fun r => subset.all (fun c => (rowVal? r c).isSome))
  if "PDO" ∈ df.cols then pdoFilter phase th candidates else candidates

/-- One row of the returned frame: the candidate's data plus the added
`<col>_Diff` columns and the `Score` column.  The code's
`Score = sqrt(sq_diff_sum)` is carried as its exact square
`scoreSq = sq_diff_sum`; the real-valued score is `Real.sqrt scoreSq`
(sorting by the score or by its square is the same ordering). -/
structure ResultRow where
  year : Int
  month : Nat
  vals : IdxMap
  diffs : List (String × ℚ)
  scoreSq : ℚ
deriving DecidableEq

/-- Reading a cell of a result row (same convention as `rowVal?`). -/
def ResultRow.val? (r : ResultRow) (c : String) : Option ℚ :=
  if c = "Year" then some ((r.year : ℚ))
  else if c = "Month" then some ((r.month : ℚ))
  else imLookup r.vals c

/-- Step 5 of the search: `candidates[f'{col}_Diff'] = candidates[col] -
target_val` for each valid target in order, accumulating
`sq_diff_sum += diff ** 2`, then `Score = sqrt(sq_diff_sum)` (kept
squared here). -/
def scoreRow (vt : List (String × ℚ)) (r : Row) : ResultRow :=
  let diffs := vt.map (fun p => (p.1 ++ "_Diff", (rowVal? r p.1).getD 0 - p.2))
  ⟨r.year, r.month, r.vals, diffs, diffs.foldl (fun acc d => acc + d.2 ^ 2) 0⟩

/-- `sort_values('Score')` comparison (equivalent on the squares). -/
def scoreLe (a b : ResultRow) : Bool :=
  decide (a.scoreSq ≤ b.scoreSq)

/-- `search_analog_years(df, target_month, targets, pdo_phase,
pdo_threshold, top_n)`.  The one uncaught exception of the source — the
`KeyError` of `df[df['Month'] == target_month]` when the frame has no
`Month` column (e.g. the empty no-data frame) — is modelled as the
`.error` branch; every other input returns `.ok`. -/
def search_analog_years (df : DataFrame) (target_month : Nat)
    (targets : List (String × ℚ)) (pdo_phase : String) (pdo_threshold : ℚ)
    (top_n : Nat) : Except String (List ResultRow) :=
  if "Month" ∉ df.cols then .error "KeyError: Month"
  else
    let vt := validTargets df.cols targets
    if vt.isEmpty then .ok []
    else
      let elig := eligibleCandidates df target_month targets pdo_phase pdo_threshold
      if elig.isEmpty then .ok []
      else .ok ((sortBy scoreLe (elig.map (scoreRow vt))).take top_n)

/-- The Python signature's defaults: `pdo_phase='neg'`,
`pdo_threshold=0.5`, `top_n=5`; a caller that omits them gets this
call. -/
def searchDefaults (df : DataFrame) (target_month : Nat)
    (targets : List (String × ℚ)) : Except String (List ResultRow) :=
  search_analog_years df target_month targets "neg" (1/2) 5

/-! ## Lemmas about the insertion sort -/

theorem mem_insertBy {le : α → α → Bool} {a x : α} {l : List α} :
    x ∈ insertBy le a l ↔ x = a ∨ x ∈ l := by
  induction l with
  | nil => simp [insertBy]
  | cons b bs ih =>
    unfold insertBy
    split
    · simp
    · simp [ih]
      tauto

theorem insertBy_perm (le : α → α → Bool) (a : α) (l : List α) :
    (insertBy le a l).Perm (a :: l) := by
  induction l with
  | nil => exact List.Perm.refl _
  | cons b bs ih =>
    unfold insertBy
    split
    · exact List.Perm.refl _
    · exact (ih.cons b).trans (List.Perm.swap a b bs)

theorem sortBy_perm (le : α → α → Bool) (l : List α) : (sortBy le l).Perm l := by
  induction l with
  | nil => exact List.Perm.refl _
  | cons a as ih => exact (insertBy_perm le a (sortBy le as)).trans (ih.cons a)

theorem length_sortBy (le : α → α → Bool) (l : List α) :
    (sortBy le l).length = l.length :=
  (sortBy_perm le l).length_eq

theorem pairwise_insertBy {le : α → α → Bool}
    (htr : ∀ x y z, le x y = true → le y z = true → le x z = true)
    (hto : ∀ x y, le x y = false → le y x = true)
    {a : α} {l : List α} (hl : l.Pairwise (fun x y => le x y = true)) :
    (insertBy le a l).Pairwise (fun x y => le x y = true) := by
  induction l with
  | nil => simp [insertBy]
  | cons b bs ih =>
    rw [List.pairwise_cons] at hl
    obtain ⟨hb, hbs⟩ := hl
    unfold insertBy
    split
    · rename_i hab
      refine List.pairwise_cons.mpr ⟨?_, List.pairwise_cons.mpr ⟨hb, hbs⟩⟩
      intro x hx
      rcases List.mem_cons.mp hx with h | h
      · exact h ▸ hab
      · exact htr a b x hab (hb x h)
    · rename_i hab
      refine List.pairwise_cons.mpr ⟨?_, ih hbs⟩
      intro x hx
      rcases mem_insertBy.mp hx with h | h
      · exact h ▸ hto a b (Bool.not_eq_true _ ▸ hab)
      · exact hb x h

theorem pairwise_sortBy {le : α → α → Bool}
    (htr : ∀ x y z, le x y = true → le y z = true → le x z = true)
    (hto : ∀ x y, le x y = false → le y x = true) (l : List α) :
    (sortBy le l).Pairwise (fun x y => le x y = true) := by
  induction l with
  | nil => simp [sortBy]
  | cons a as ih => exact pairwise_insertBy htr hto ih

/-! ## Lemmas about the `data_map` operations -/

theorem imLookup_setEntry (im : IdxMap) (idx i : String) (v : ℚ) :
    imLookup (setEntry im idx v) i = if i = idx then some v else imLookup im i := by
  induction im with
  | nil =>
    by_cases h : i = idx
    · simp [setEntry, imLookup, h]
    · simp [setEntry, imLookup, h, Ne.symm h]
  | cons p rest ih =>
    obtain ⟨k, w⟩ := p
    by_cases hk : k = idx
    · subst hk
      by_cases h : i = k
      · simp [setEntry, imLookup, h]
      · simp [setEntry, imLookup, h, Ne.symm h]
    · by_cases h : k = i
      · subst h
        simp [setEntry, imLookup, hk, Ne.symm hk]
      · simp [setEntry, imLookup, hk, h, ih]

theorem lookupVal_setIdx (dm : DataMap) (y' : Int) (m' : Nat) (idx' : String) (v : ℚ)
    (y : Int) (m : Nat) (idx : String) :
    lookupVal (setIdx dm y' m' idx' v) y m idx =
      if y = y' ∧ m = m' ∧ idx = idx' then some v else lookupVal dm y m idx := by
  induction dm with
  | nil =>
    by_cases hk : (y, m) = (y', m')
    · injection hk with h1 h2
      subst h1; subst h2
      by_cases hi : idx = idx'
      · simp [setIdx, lookupVal, dmLookup, imLookup, hi]
      · simp [setIdx, lookupVal, dmLookup, imLookup, hi, Ne.symm hi]
    · have hcond : ¬(y = y' ∧ m = m' ∧ idx = idx') := by
        intro ⟨h1, h2, _⟩; exact hk (by rw [h1, h2])
      have hcomp : ¬(y' = y ∧ m' = m) := by
        intro ⟨h1, h2⟩; exact hk (by rw [h1, h2])
      simp [setIdx, lookupVal, dmLookup, hcond, hcomp]
  | cons p rest ih =>
    obtain ⟨k, im⟩ := p
    by_cases hk : k = (y', m')
    · subst hk
      by_cases h : (y, m) = (y', m')
      · injection h with h1 h2
        subst h1; subst h2
        by_cases hi : idx = idx' <;>
          simp [setIdx, lookupVal, dmLookup, imLookup_setEntry, hi]
      · have hcond : ¬(y = y' ∧ m = m' ∧ idx = idx') := by
          intro ⟨h1, h2, _⟩; exact h (by rw [h1, h2])
        have hcomp : ¬(y' = y ∧ m' = m) := by
          intro ⟨h1, h2⟩; exact h (by rw [h1, h2])
        simp [setIdx, lookupVal, dmLookup, hcond, hcomp]
    · by_cases h : k = (y, m)
      · subst h
        have hcond : ¬(y = y' ∧ m = m' ∧ idx = idx') := by
          intro ⟨h1, h2, _⟩; exact hk (by rw [h1, h2])
        simp [setIdx, lookupVal, dmLookup, hcond, hk]
      · have h2 := ih
        have hcomp : ¬((y, m) = k) := fun hh => h (Eq.symm hh)
        simp only [lookupVal] at h2 ⊢
        simp [setIdx, dmLookup, hk, h, hcomp, h2]

/-! ## Effect of storing a list of observations -/

theorem lookupVal_foldl_congr (os : List Obs) (dm₁ dm₂ : DataMap) (y : Int) (m : Nat)
    (idx : String) (h : lookupVal dm₁ y m idx = lookupVal dm₂ y m idx) :
    lookupVal (os.foldl applyObs dm₁) y m idx = lookupVal (os.foldl applyObs dm₂) y m idx := by
  induction os generalizing dm₁ dm₂ with
  | nil => exact h
  | cons o os ih =>
    refine ih _ _ ?_
    simp only [applyObs, lookupVal_setIdx]
    split
    · rfl
    · exact h

theorem lookupVal_foldl_ne (os : List Obs) (dm : DataMap) (y : Int) (m : Nat) (idx : String)
    (h : ∀ o ∈ os, o.index ≠ idx) :
    lookupVal (os.foldl applyObs dm) y m idx = lookupVal dm y m idx := by
  induction os generalizing dm with
  | nil => rfl
  | cons o os ih =>
    have h1 : o.index ≠ idx := h o (List.mem_cons_self o os)
    have h2 := ih (applyObs dm o) (fun o' ho' => h o' (List.mem_cons_of_mem o ho'))
    rw [List.foldl_cons, h2, applyObs, lookupVal_setIdx]
    have hc : ¬(y = o.year ∧ m = o.month ∧ idx = o.index) := by
      intro ⟨_, _, hc⟩; exact h1 hc.symm
    rw [if_neg hc]

/-- The keys of `data_map`, in insertion order. -/
def dmKeys (dm : DataMap) : List (Int × Nat) :=
  dm.map Prod.fst

theorem dmKeys_setIdx (dm : DataMap) (y : Int) (m : Nat) (idx : String) (v : ℚ) :
    dmKeys (setIdx dm y m idx v) =
      if (y, m) ∈ dmKeys dm then dmKeys dm else dmKeys dm ++ [(y, m)] := by
  induction dm with
  | nil => simp [setIdx, dmKeys]
  | cons p rest ih =>
    obtain ⟨k, im⟩ := p
    by_cases hk : k = (y, m)
    · subst hk
      simp [setIdx, dmKeys]
    · have hne : ¬(y, m) = k := fun hh => hk hh.symm
      simp only [setIdx, if_neg hk, dmKeys, List.map_cons, List.mem_cons] at ih ⊢
      simp only [hne, false_or]
      rw [ih]
      split <;> simp

theorem nodup_dmKeys_setIdx (dm : DataMap) (y : Int) (m : Nat) (idx : String) (v : ℚ)
    (h : (dmKeys dm).Nodup) : (dmKeys (setIdx dm y m idx v)).Nodup := by
  rw [dmKeys_setIdx]
  split
  · exact h
  · rename_i hmem
    simp [List.nodup_append, h, hmem]

theorem nodup_dmKeys_foldl (os : List Obs) (dm : DataMap) (h : (dmKeys dm).Nodup) :
    (dmKeys (os.foldl applyObs dm)).Nodup := by
  induction os generalizing dm with
  | nil => exact h
  | cons o os ih => exact ih _ (nodup_dmKeys_setIdx _ _ _ _ _ h)

/-! ## Which index a source writes -/

theorem mem_monthObs (cfg : SourceCfg) (yr : Int) (parts : List String) (m : Nat) (o : Obs) :
    o ∈ monthObs cfg yr parts m ↔
      ∃ v, parseFloat? (parts.getD m "") = some v ∧ cfg.sentinel.keep v = true ∧
        o = ⟨yr, m, cfg.index, v⟩ := by
  unfold monthObs
  cases hp : parseFloat? (parts.getD m "") with
  | none => simp
  | some v =>
    by_cases hkeep : cfg.sentinel.keep v = true <;> simp [hkeep]

theorem index_lineObsPsl (cfg : SourceCfg) (start : Int) (line : String) (o : Obs)
    (h : o ∈ lineObsPsl cfg start line) : o.index = cfg.index := by
  simp only [lineObsPsl] at h
  split at h
  · split at h
    · simp at h
    · obtain ⟨m, _, hm⟩ := List.mem_flatMap.mp h
      obtain ⟨v, _, _, rfl⟩ := (mem_monthObs ..).mp hm
      rfl
  · simp at h

theorem index_lineObsCpc (cfg : SourceCfg) (start : Int) (line : String) (o : Obs)
    (h : o ∈ lineObsCpc cfg start line) : o.index = cfg.index := by
  simp only [lineObsCpc] at h
  split at h
  · split at h
    · simp at h
    · obtain ⟨m, _, hm⟩ := List.mem_flatMap.mp h
      split at hm
      · obtain ⟨v, _, _, rfl⟩ := (mem_monthObs ..).mp hm
        rfl
      · simp at hm
  · simp at h

theorem index_nceiLinesObs (cfg : SourceCfg) (start : Int) (lines : List String) (o : Obs)
    (h : o ∈ nceiLinesObs cfg start lines) : o.index = cfg.index := by
  induction lines with
  | nil => simp [nceiLinesObs] at h
  | cons line rest ih =>
    simp only [nceiLinesObs] at h
    split at h
    · exact ih h
    · split at h
      · split at h
        · simp at h
        · rcases List.mem_append.mp h with h | h
          · split at h
            · simp at h
            · obtain ⟨m, _, hm⟩ := List.mem_flatMap.mp h
              obtain ⟨v, _, _, rfl⟩ := (mem_monthObs ..).mp hm
              rfl
          · exact ih h
      · exact ih h

theorem index_sourceObs (cfg : SourceCfg) (start : Int) (text : String) (o : Obs)
    (h : o ∈ sourceObs cfg start text) : o.index = cfg.index := by
  obtain ⟨cidx, ckind, csent⟩ := cfg
  cases ckind with
  | psl =>
    simp only [sourceObs] at h
    obtain ⟨l, _, hl⟩ := List.mem_flatMap.mp h
    exact index_lineObsPsl _ _ _ _ hl
  | ncei =>
    exact index_nceiLinesObs _ _ _ _ h
  | cpc =>
    simp only [sourceObs] at h
    obtain ⟨l, _, hl⟩ := List.mem_flatMap.mp h
    exact index_lineObsCpc _ _ _ _ hl
  | cpcPre =>
    simp only [sourceObs] at h
    cases hpre : preBlock? text with
    | none => rw [hpre] at h; simp at h
    | some body =>
      rw [hpre] at h
      obtain ⟨l, _, hl⟩ := List.mem_flatMap.mp h
      exact index_lineObsCpc _ _ _ _ hl

/-! ## Search-engine helper lemmas -/

theorem cellGe_iff (x : Option ℚ) (t : ℚ) : cellGe x t = true ↔ ∃ v, x = some v ∧ t ≤ v := by
  cases x <;> simp [cellGe]

theorem cellLe_iff (x : Option ℚ) (t : ℚ) : cellLe x t = true ↔ ∃ v, x = some v ∧ v ≤ t := by
  cases x <;> simp [cellLe]

theorem cellGt_iff (x : Option ℚ) (t : ℚ) : cellGt x t = true ↔ ∃ v, x = some v ∧ t < v := by
  cases x <;> simp [cellGt]

theorem cellLt_iff (x : Option ℚ) (t : ℚ) : cellLt x t = true ↔ ∃ v, x = some v ∧ v < t := by
  cases x <;> simp [cellLt]

theorem mem_of_mem_pdoFilter {phase : String} {th : ℚ} {rows : List Row} {r : Row}
    (h : r ∈ pdoFilter phase th rows) : r ∈ rows := by
  unfold pdoFilter at h
  split at h
  · exact List.mem_of_mem_filter h
  · split at h
    · exact List.mem_of_mem_filter h
    · split at h
      · exact List.mem_of_mem_filter h
      · exact h

theorem mem_eligible (df : DataFrame) (tm : Nat) (targets : List (String × ℚ))
    (phase : String) (th : ℚ) (r : Row)
    (h : r ∈ eligibleCandidates df tm targets phase th) :
    r ∈ df.rows ∧ r.month = tm := by
  simp only [eligibleCandidates] at h
  split at h
  · have h2 := mem_of_mem_pdoFilter h
    have h3 := List.mem_of_mem_filter h2
    exact ⟨List.mem_of_mem_filter h3, by simpa using (List.mem_filter.mp h3).2⟩
  · have h3 := List.mem_of_mem_filter h
    exact ⟨List.mem_of_mem_filter h3, by simpa using (List.mem_filter.mp h3).2⟩

theorem foldl_add_sq (l : List (String × ℚ)) (a : ℚ) :
    l.foldl (fun acc d => acc + d.2 ^ 2) a = a + (l.map (fun d => d.2 ^ 2)).sum := by
  induction l generalizing a with
  | nil => simp
  | cons d ds ih => simp [ih, add_assoc]

theorem scoreRow_scoreSq (vt : List (String × ℚ)) (r : Row) :
    (scoreRow vt r).scoreSq =
      (vt.map (fun p => ((rowVal? r p.1).getD 0 - p.2) ^ 2)).sum := by
  simp only [scoreRow, foldl_add_sq, List.map_map, zero_add]
  rfl

theorem mem_search_ok (df : DataFrame) (tm : Nat) (targets : List (String × ℚ))
    (phase : String) (th : ℚ) (n : Nat) (rs : List ResultRow) (r : ResultRow)
    (hok : search_analog_years df tm targets phase th n = .ok rs) (hr : r ∈ rs) :
    ∃ r₀ ∈ eligibleCandidates df tm targets phase th,
      r = scoreRow (validTargets df.cols targets) r₀ := by
  simp only [search_analog_years] at hok
  split at hok
  · cases hok
  · split at hok
    · cases hok
      simp at hr
    · split at hok
      · cases hok
        simp at hr
      · cases hok
        have h1 := List.take_subset n _ hr
        have h2 := ((sortBy_perm scoreLe _).mem_iff).mp h1
        obtain ⟨r₀, hr₀, heq⟩ := List.mem_map.mp h2
        exact ⟨r₀, hr₀, heq.symm⟩

/-! ## Concrete data used by the witnesses -/

/-- A candidate row sitting exactly at the PDO threshold. -/
def witRowAtHalf : Row := ⟨1997, 11, [("PDO", 1/2)]⟩

/-- A candidate row just below the PDO threshold. -/
def witRowBelow : Row := ⟨1982, 11, [("PDO", 49/100)]⟩

/-- A two-candidate pool around the threshold boundary. -/
def witPool : List Row := [witRowAtHalf, witRowBelow]

/-- A one-row table with only an `ONI` column. -/
def witTableONI : DataFrame :=
  ⟨["Year", "Month", "ONI"], [⟨2000, 1, [("ONI", 1)]⟩]⟩

/-! ## C3: PDO-phase filter semantics -/

theorem cellBetween_iff (x : Option ℚ) (a b : ℚ) :
    (cellGt x a && cellLt x b) = true ↔ ∃ v, x = some v ∧ a < v ∧ v < b := by
  cases x <;> simp [cellGt, cellLt]

/-- C3: for every constrained PDO-phase search with a non-negative
threshold, phase `pos` retains exactly the candidate rows with
`PDO ≥ threshold`, `neg` exactly those with `PDO ≤ −threshold`, `0`
(neutral) exactly those with `−threshold < PDO < threshold` (strict on
both sides, so a row exactly at the threshold is excluded from neutral
but included for positive/negative), and any other phase string
(unconstrained) removes no row. -/
theorem c3_pdo_phase_filter (th : ℚ) (_hth : 0 ≤ th) (rows : List Row) (r : Row)
    (phase : String) (hphase : phase ≠ "pos" ∧ phase ≠ "neg" ∧ phase ≠ "0") :
    (r ∈ pdoFilter "pos" th rows ↔ r ∈ rows ∧ ∃ v, rowVal? r "PDO" = some v ∧ th ≤ v) ∧
    (r ∈ pdoFilter "neg" th rows ↔ r ∈ rows ∧ ∃ v, rowVal? r "PDO" = some v ∧ v ≤ -th) ∧
    (r ∈ pdoFilter "0" th rows ↔
      r ∈ rows ∧ ∃ v, rowVal? r "PDO" = some v ∧ -th < v ∧ v < th) ∧
    pdoFilter phase th rows = rows := by
  refine ⟨?_, ?_, ?_, ?_⟩
  · simp [pdoFilter, List.mem_filter, cellGe_iff]
  · simp [pdoFilter, List.mem_filter, cellLe_iff]
  · have heq : pdoFilter "0" th rows =
        rows.filter (fun r => cellGt (rowVal? r "PDO") (-th) && cellLt (rowVal? r "PDO") th) := by
      unfold pdoFilter
      rw [if_neg (by decide), if_neg (by decide), if_pos rfl]
    rw [heq, List.mem_filter, cellBetween_iff]
  · simp [pdoFilter, hphase.1, hphase.2.1, hphase.2.2]

/-- Witness for C3 at threshold `0.5`, the boundary row `PDO = 0.5` and
the unconstrained phase string `'any'`. -/
theorem c3_pdo_phase_filter_witness :
    (0 ≤ (1/2 : ℚ)) ∧
    ((witRowAtHalf ∈ pdoFilter "pos" (1/2) witPool ↔
        witRowAtHalf ∈ witPool ∧ ∃ v, rowVal? witRowAtHalf "PDO" = some v ∧ 1/2 ≤ v) ∧
     (witRowAtHalf ∈ pdoFilter "neg" (1/2) witPool ↔
        witRowAtHalf ∈ witPool ∧ ∃ v, rowVal? witRowAtHalf "PDO" = some v ∧ v ≤ -(1/2)) ∧
     (witRowAtHalf ∈ pdoFilter "0" (1/2) witPool ↔
        witRowAtHalf ∈ witPool ∧
          ∃ v, rowVal? witRowAtHalf "PDO" = some v ∧ -(1/2) < v ∧ v < 1/2) ∧
     pdoFilter "any" (1/2) witPool = witPool) :=
  ⟨by norm_num,
   c3_pdo_phase_filter (1/2) (by norm_num) witPool witRowAtHalf "any" (by decide)⟩

/-! ## C1: the Euclidean score -/

theorem scoreRow_val (vt : List (String × ℚ)) (r : Row) (c : String) :
    (scoreRow vt r).val? c = rowVal? r c := rfl

/-- C1: every returned row's `Score` is
`sqrt(Σ (value − target)²)` summed over exactly the target-mapping
indices that exist as table columns (when every requested index is a
column, that is exactly the target mapping), and columns outside the
target mapping never influence the score: two rows agreeing on the
requested columns get the same score. -/
theorem c1_score_euclidean (df : DataFrame) (tm : Nat) (targets : List (String × ℚ))
    (phase : String) (th : ℚ) (n : Nat) (rs : List ResultRow) (r : ResultRow)
    (r₁ r₂ : Row)
    (hok : search_analog_years df tm targets phase th n = .ok rs) (hr : r ∈ rs)
    (hagree : ∀ p ∈ validTargets df.cols targets, rowVal? r₁ p.1 = rowVal? r₂ p.1) :
    r.scoreSq = ((validTargets df.cols targets).map
        (fun p => ((r.val? p.1).getD 0 - p.2) ^ 2)).sum ∧
    Real.sqrt ((r.scoreSq : ℝ)) =
      Real.sqrt ((((validTargets df.cols targets).map
        (fun p => ((r.val? p.1).getD 0 - p.2) ^ 2)).sum : ℚ) : ℝ) ∧
    ((∀ p ∈ targets, p.1 ∈ df.cols) → validTargets df.cols targets = targets) ∧
    (scoreRow (validTargets df.cols targets) r₁).scoreSq =
      (scoreRow (validTargets df.cols targets) r₂).scoreSq := by
  obtain ⟨r₀, hr₀, rfl⟩ := mem_search_ok df tm targets phase th n rs r hok hr
  have h1 : (scoreRow (validTargets df.cols targets) r₀).scoreSq =
      ((validTargets df.cols targets).map
        (fun p => (((scoreRow (validTargets df.cols targets) r₀).val? p.1).getD 0 - p.2) ^ 2)).sum := by
    simp only [scoreRow_val, scoreRow_scoreSq]
  refine ⟨h1, by rw [h1], ?_, ?_⟩
  · intro hall
    unfold validTargets
    exact List.filter_eq_self.mpr (fun p hp => by simpa using hall p hp)
  · simp only [scoreRow_scoreSq]
    congr 1
    apply List.map_congr_left
    intro p hp
    rw [hagree p hp]

/-- Witness for C1: a one-column table, one target, explicit result row. -/
theorem c1_score_euclidean_witness :
    (search_analog_years witTableONI 1 [("ONI", 1/2)] "any" (1/2) 5 =
      .ok [⟨2000, 1, [("ONI", 1)], [("ONI_Diff", 1/2)], 1/4⟩]) ∧
    ((⟨2000, 1, [("ONI", 1)], [("ONI_Diff", 1/2)], 1/4⟩ : ResultRow).scoreSq =
        ((validTargets witTableONI.cols [("ONI", 1/2)]).map
          (fun p => (((⟨2000, 1, [("ONI", 1)], [("ONI_Diff", 1/2)], 1/4⟩ : ResultRow).val? p.1).getD 0 - p.2) ^ 2)).sum ∧
      Real.sqrt (((⟨2000, 1, [("ONI", 1)], [("ONI_Diff", 1/2)], 1/4⟩ : ResultRow).scoreSq : ℝ)) =
        Real.sqrt ((((validTargets witTableONI.cols [("ONI", 1/2)]).map
          (fun p => (((⟨2000, 1, [("ONI", 1)], [("ONI_Diff", 1/2)], 1/4⟩ : ResultRow).val? p.1).getD 0 - p.2) ^ 2)).sum : ℚ) : ℝ) ∧
      ((∀ p ∈ [(("ONI" : String), (1/2 : ℚ))], p.1 ∈ witTableONI.cols) →
        validTargets witTableONI.cols [("ONI", 1/2)] = [("ONI", 1/2)]) ∧
      (scoreRow (validTargets witTableONI.cols [("ONI", 1/2)]) witRowAtHalf).scoreSq =
        (scoreRow (validTargets witTableONI.cols [("ONI", 1/2)]) witRowAtHalf).scoreSq) :=
  ⟨by with_unfolding_all decide,
   c1_score_euclidean witTableONI 1 [("ONI", 1/2)] "any" (1/2) 5
     [⟨2000, 1, [("ONI", 1)], [("ONI_Diff", 1/2)], 1/4⟩]
     ⟨2000, 1, [("ONI", 1)], [("ONI_Diff", 1/2)], 1/4⟩ witRowAtHalf witRowAtHalf
     (by with_unfolding_all decide) (List.mem_singleton.mpr rfl) (fun p _ => rfl)⟩

/-! ## C9: purity and determinism -/

/-- C9: the search is pure and deterministic.  Identical table, target
month, target mapping, PDO phase, PDO threshold and `top_n` give
identical rows in identical order; and each returned row is a newly
built view copying a row of the input table (the source's only writes
go to the `candidates = ....copy()` frame, never to `df`, which the
embedding renders by the search being a function of its arguments
alone). -/
theorem c9_pure_deterministic (df₁ df₂ : DataFrame) (tm₁ tm₂ : Nat)
    (targets₁ targets₂ : List (String × ℚ)) (phase₁ phase₂ : String) (th₁ th₂ : ℚ)
    (n₁ n₂ : Nat) (rs : List ResultRow) (r : ResultRow)
    (hdf : df₁ = df₂) (htm : tm₁ = tm₂) (ht : targets₁ = targets₂)
    (hp : phase₁ = phase₂) (hth : th₁ = th₂) (hn : n₁ = n₂)
    (hok : search_analog_years df₁ tm₁ targets₁ phase₁ th₁ n₁ = .ok rs) (hr : r ∈ rs) :
    search_analog_years df₁ tm₁ targets₁ phase₁ th₁ n₁ =
      search_analog_years df₂ tm₂ targets₂ phase₂ th₂ n₂ ∧
    ∃ r₀ ∈ df₁.rows, r.year = r₀.year ∧ r.month = r₀.month ∧ r.vals = r₀.vals := by
  subst hdf; subst htm; subst ht; subst hp; subst hth; subst hn
  refine ⟨rfl, ?_⟩
  obtain ⟨r₀, hr₀, rfl⟩ := mem_search_ok _ _ _ _ _ _ _ _ hok hr
  exact ⟨r₀, (mem_eligible _ _ _ _ _ _ hr₀).1, rfl, rfl, rfl⟩

/-- Witness for C9 on the one-row `ONI` table. -/
theorem c9_pure_deterministic_witness :
    (search_analog_years witTableONI 1 [("ONI", 1/2)] "any" (1/2) 5 =
      .ok [⟨2000, 1, [("ONI", 1)], [("ONI_Diff", 1/2)], 1/4⟩]) ∧
    (search_analog_years witTableONI 1 [("ONI", 1/2)] "any" (1/2) 5 =
      search_analog_years witTableONI 1 [("ONI", 1/2)] "any" (1/2) 5 ∧
     ∃ r₀ ∈ witTableONI.rows,
       (⟨2000, 1, [("ONI", 1)], [("ONI_Diff", 1/2)], 1/4⟩ : ResultRow).year = r₀.year ∧
       (⟨2000, 1, [("ONI", 1)], [("ONI_Diff", 1/2)], 1/4⟩ : ResultRow).month = r₀.month ∧
       (⟨2000, 1, [("ONI", 1)], [("ONI_Diff", 1/2)], 1/4⟩ : ResultRow).vals = r₀.vals) :=
  ⟨by with_unfolding_all decide,
   c9_pure_deterministic witTableONI witTableONI 1 1 [("ONI", 1/2)] [("ONI", 1/2)]
     "any" "any" (1/2) (1/2) 5 5
     [⟨2000, 1, [("ONI", 1)], [("ONI_Diff", 1/2)], 1/4⟩]
     ⟨2000, 1, [("ONI", 1)], [("ONI_Diff", 1/2)], 1/4⟩
     rfl rfl rfl rfl rfl rfl (by with_unfolding_all decide) (List.mem_singleton.mpr rfl)⟩

/-! ## C10: the default PDO phase is negative -/

/-- C10: the `pdo_phase` parameter defaults to `'neg'`: a caller that
omits the phase argument (hence also the defaulted threshold `0.5` and
`top_n = 5`) runs the negative-phase search, so on a table with a `PDO`
column every returned row has `PDO ≤ −0.5` — not an unconstrained
search. -/
theorem c10_default_phase_neg (df : DataFrame) (tm : Nat) (targets : List (String × ℚ))
    (rs : List ResultRow) (r : ResultRow) (hpdo : "PDO" ∈ df.cols)
    (hok : searchDefaults df tm targets = .ok rs) (hr : r ∈ rs) :
    searchDefaults df tm targets = search_analog_years df tm targets "neg" (1/2) 5 ∧
    ∃ v, r.val? "PDO" = some v ∧ v ≤ -(1/2) := by
  refine ⟨rfl, ?_⟩
  simp only [searchDefaults] at hok
  obtain ⟨r₀, hr₀, rfl⟩ := mem_search_ok _ _ _ _ _ _ _ _ hok hr
  simp only [eligibleCandidates, if_pos hpdo] at hr₀
  unfold pdoFilter at hr₀
  rw [if_neg (by decide : ¬("neg" : String) = "pos"), if_pos rfl] at hr₀
  have hcell := (List.mem_filter.mp hr₀).2
  obtain ⟨v, hv, hle⟩ := (cellLe_iff _ _).mp hcell
  exact ⟨v, by rw [scoreRow_val]; exact hv, hle⟩

/-- A one-row table with `PDO` deep in negative phase. -/
def witTablePDO : DataFrame :=
  ⟨["Year", "Month", "PDO"], [⟨1999, 2, [("PDO", -1)]⟩]⟩

/-- Witness for C10: the defaulted call on a `PDO` table returns the
negative-phase row. -/
theorem c10_default_phase_neg_witness :
    (searchDefaults witTablePDO 2 [("PDO", 0)] =
      .ok [⟨1999, 2, [("PDO", -1)], [("PDO_Diff", -1)], 1⟩]) ∧
    (searchDefaults witTablePDO 2 [("PDO", 0)] =
      search_analog_years witTablePDO 2 [("PDO", 0)] "neg" (1/2) 5 ∧
     ∃ v, (⟨1999, 2, [("PDO", -1)], [("PDO_Diff", -1)], 1⟩ : ResultRow).val? "PDO" = some v ∧
       v ≤ -(1/2)) :=
  ⟨by with_unfolding_all decide,
   c10_default_phase_neg witTablePDO 2 [("PDO", 0)]
     [⟨1999, 2, [("PDO", -1)], [("PDO_Diff", -1)], 1⟩]
     ⟨1999, 2, [("PDO", -1)], [("PDO_Diff", -1)], 1⟩
     (by decide) (by with_unfolding_all decide) (List.mem_singleton.mpr rfl)⟩

/-! ## C2 (corrected): ordering and result count -/

theorem scoreLe_trans (x y z : ResultRow) (h1 : scoreLe x y = true) (h2 : scoreLe y z = true) :
    scoreLe x z = true := by
  simp only [scoreLe, decide_eq_true_eq] at *
  exact le_trans h1 h2

theorem scoreLe_total (x y : ResultRow) (h : scoreLe x y = false) : scoreLe y x = true := by
  simp only [scoreLe, decide_eq_false_iff_not, decide_eq_true_eq, not_le] at *
  exact le_of_lt h

/-- C2 counterexample: a query whose only target index (`NAO`) is not a
table column returns zero rows even though one candidate survives the
month, missing-value and PDO-phase filters, so the returned count `0`
differs from `min(top_n, 1) = 1`. -/
theorem c2_counterexample :
    search_analog_years witTableONI 1 [("NAO", 0)] "any" (1/2) 5 = .ok [] ∧
    (eligibleCandidates witTableONI 1 [("NAO", 0)] "any" (1/2)).length = 1 ∧
    min 5 (eligibleCandidates witTableONI 1 [("NAO", 0)] "any" (1/2)).length ≠ 0 :=
  ⟨by with_unfolding_all decide, by with_unfolding_all decide, by with_unfolding_all decide⟩

/-- C2 (amended): provided at least one target index is a column of the
table, the returned rows are ordered by non-decreasing `Score` and
their number equals `min(top_n, #eligible)`, where the eligible
candidates are the rows surviving the month, missing-value and
PDO-phase filters; when no target index is a column the result is
empty regardless of surviving candidates. -/
theorem c2_sorted_and_count (df : DataFrame) (tm : Nat) (targets : List (String × ℚ))
    (phase : String) (th : ℚ) (n : Nat) (rs : List ResultRow)
    (hvt : validTargets df.cols targets ≠ [])
    (hok : search_analog_years df tm targets phase th n = .ok rs) :
    rs.Pairwise (fun a b => Real.sqrt ((a.scoreSq : ℝ)) ≤ Real.sqrt ((b.scoreSq : ℝ))) ∧
    rs.length = min n (eligibleCandidates df tm targets phase th).length := by
  simp only [search_analog_years] at hok
  split at hok
  · cases hok
  · split at hok
    · rename_i hempty
      exact absurd (List.isEmpty_iff.mp hempty) hvt
    · split at hok
      · rename_i hempty
        cases hok
        simp [List.isEmpty_iff.mp hempty]
      · cases hok
        constructor
        · have hs := pairwise_sortBy scoreLe_trans scoreLe_total
            ((eligibleCandidates df tm targets phase th).map
              (scoreRow (validTargets df.cols targets)))
          have ht := hs.sublist (List.take_sublist n _)
          refine ht.imp ?_
          intro a b hab
          simp only [scoreLe, decide_eq_true_eq] at hab
          exact Real.sqrt_le_sqrt (by exact_mod_cast hab)
        · rw [List.length_take, length_sortBy, List.length_map]

/-! ## C8 (corrected): error behaviour -/

/-- C8 counterexample: on the empty no-data table — which has no
`Month` column — the search raises a `KeyError` instead of returning an
empty result. -/
theorem c8_counterexample :
    search_analog_years ⟨[], []⟩ 1 [("NAO", 0)] "neg" (1/2) 5 =
      .error "KeyError: Month" := by
  with_unfolding_all decide

/-- C8 (amended): provided the table has a `Month` column (true of
every nonempty canonical table), `search_analog_years` never raises —
every input yields an `.ok` result — and a target mapping none of whose
indices is a table column yields the empty result rather than an
error. -/
theorem c8_no_error_with_month (df : DataFrame) (tm : Nat) (targets : List (String × ℚ))
    (phase : String) (th : ℚ) (n : Nat) (hmonth : "Month" ∈ df.cols) :
    (∃ rs, search_analog_years df tm targets phase th n = .ok rs) ∧
    ((∀ p ∈ targets, p.1 ∉ df.cols) →
      search_analog_years df tm targets phase th n = .ok []) := by
  constructor
  · unfold search_analog_years
    rw [if_neg (not_not_intro hmonth)]
    dsimp only
    split
    · exact ⟨[], rfl⟩
    · split
      · exact ⟨[], rfl⟩
      · exact ⟨_, rfl⟩
  · intro hnone
    have hvt : validTargets df.cols targets = [] := by
      unfold validTargets
      rw [List.filter_eq_nil_iff]
      intro p hp
      simpa using hnone p hp
    unfold search_analog_years
    rw [if_neg (not_not_intro hmonth)]
    dsimp only
    rw [hvt]
    rfl

/-- Witness for C8 (amended): the `NAO`-target query against the
`ONI`-only table resolves to the empty `.ok` result. -/
theorem c8_no_error_with_month_witness :
    ("Month" ∈ witTableONI.cols) ∧
    ((∃ rs, search_analog_years witTableONI 1 [("NAO", 0)] "neg" (1/2) 5 = .ok rs) ∧
     ((∀ p ∈ [(("NAO" : String), (0 : ℚ))], p.1 ∉ witTableONI.cols) →
       search_analog_years witTableONI 1 [("NAO", 0)] "neg" (1/2) 5 = .ok [])) :=
  ⟨by decide,
   c8_no_error_with_month witTableONI 1 [("NAO", 0)] "neg" (1/2) 5 (by decide)⟩

/-- Witness for C2 (amended) on the one-row `ONI` table. -/
theorem c2_sorted_and_count_witness :
    (validTargets witTableONI.cols [(("ONI" : String), (1/2 : ℚ))] ≠ []) ∧
    (([⟨2000, 1, [("ONI", 1)], [("ONI_Diff", 1/2)], 1/4⟩] : List ResultRow).Pairwise
       (fun a b => Real.sqrt ((a.scoreSq : ℝ)) ≤ Real.sqrt ((b.scoreSq : ℝ))) ∧
     ([⟨2000, 1, [("ONI", 1)], [("ONI_Diff", 1/2)], 1/4⟩] : List ResultRow).length =
       min 5 (eligibleCandidates witTableONI 1 [("ONI", 1/2)] "any" (1/2)).length) :=
  ⟨by with_unfolding_all decide,
   c2_sorted_and_count witTableONI 1 [("ONI", 1/2)] "any" (1/2) 5
     [⟨2000, 1, [("ONI", 1)], [("ONI_Diff", 1/2)], 1/4⟩]
     (by with_unfolding_all decide) (by with_unfolding_all decide)⟩

/-! ## C7: per-source failure isolation -/

theorem lookupVal_sources_congr (srcs : List (SourceCfg × Option String)) (start : Int)
    (dm₁ dm₂ : DataMap) (y : Int) (m : Nat) (idx : String)
    (h : lookupVal dm₁ y m idx = lookupVal dm₂ y m idx) :
    lookupVal (srcs.foldl (fun dm p => parseSource p.1 start p.2 dm) dm₁) y m idx =
      lookupVal (srcs.foldl (fun dm p => parseSource p.1 start p.2 dm) dm₂) y m idx := by
  induction srcs generalizing dm₁ dm₂ with
  | nil => exact h
  | cons p ps ih =>
    refine ih _ _ ?_
    obtain ⟨cfg, fetched⟩ := p
    cases fetched with
    | none => exact h
    | some text => exact lookupVal_foldl_congr _ _ _ _ _ _ h

/-- C7: no exception escapes `get_climate_indices` for a single
source's failure (each source's `try` block is total in the embedding),
and the failure of one source is isolated: replacing a source's fetched
body by a failed fetch changes no cell of any other index column, so
every other source's observations are untouched and only the failing
source's own column degrades toward absent. -/
theorem c7_source_isolation (pre post : List (SourceCfg × Option String)) (cfg : SourceCfg)
    (text : String) (start : Int) (y : Int) (m : Nat) (idx : String)
    (hidx : idx ≠ cfg.index) :
    lookupVal (ingest (pre ++ (cfg, some text) :: post) start) y m idx =
      lookupVal (ingest (pre ++ (cfg, none) :: post) start) y m idx := by
  unfold ingest
  rw [List.foldl_append, List.foldl_append, List.foldl_cons, List.foldl_cons]
  apply lookupVal_sources_congr
  exact lookupVal_foldl_ne _ _ _ _ _
    (fun o ho heq => hidx (heq ▸ index_sourceObs cfg start text o ho))

/-- An ONI line for 1960 (13 tokens). -/
def witOniText : String :=
  "1960 1.5 0.1 0.2 0.3 0.4 0.5 0.6 0.7 0.8 0.9 1.0 1.1"

/-- Witness for C7: failing the ONI fetch leaves the NAO cell intact. -/
theorem c7_source_isolation_witness :
    (("NAO" : String) ≠ oniCfg.index) ∧
    lookupVal (ingest ([] ++ (oniCfg, some witOniText) :: [(naoCfg, some "1960 2.0")]) 1950)
        1960 1 "NAO" =
      lookupVal (ingest ([] ++ (oniCfg, none) :: [(naoCfg, some "1960 2.0")]) 1950)
        1960 1 "NAO" :=
  ⟨by decide,
   c7_source_isolation [] [(naoCfg, some "1960 2.0")] oniCfg witOniText 1950 1960 1 "NAO"
     (by decide)⟩

/-! ## C4: canonical-table invariants -/

theorem nodup_dmKeys_sources (srcs : List (SourceCfg × Option String)) (start : Int)
    (dm : DataMap) (h : (dmKeys dm).Nodup) :
    (dmKeys (srcs.foldl (fun dm p => parseSource p.1 start p.2 dm) dm)).Nodup := by
  induction srcs generalizing dm with
  | nil => exact h
  | cons p ps ih =>
    obtain ⟨cfg, fetched⟩ := p
    cases fetched with
    | none => exact ih _ h
    | some text => exact ih _ (nodup_dmKeys_foldl _ _ h)

theorem nodup_dmKeys_ingest (srcs : List (SourceCfg × Option String)) (start : Int) :
    (dmKeys (ingest srcs start)).Nodup :=
  nodup_dmKeys_sources srcs start [] (by simp [dmKeys])

theorem rowLe_trans (a b c : Row) (h1 : rowLe a b = true) (h2 : rowLe b c = true) :
    rowLe a c = true := by
  simp only [rowLe, Bool.or_eq_true, Bool.and_eq_true, decide_eq_true_eq] at h1 h2 ⊢
  rcases h1 with h1 | ⟨h1e, h1m⟩ <;> rcases h2 with h2 | ⟨h2e, h2m⟩ <;> omega

theorem rowLe_total (a b : Row) (h : rowLe a b = false) : rowLe b a = true := by
  by_cases hlt : b.year < a.year
  · simp [rowLe, hlt]
  · by_cases he : b.year = a.year
    · have hm : ¬ a.month ≤ b.month := by
        intro hm
        have ht : rowLe a b = true := by simp [rowLe, he.symm, hm]
        rw [h] at ht
        cases ht
      simp [rowLe, he, show b.month ≤ a.month by omega]
    · exfalso
      have hab : a.year < b.year := by omega
      have ht : rowLe a b = true := by simp [rowLe, hab]
      rw [h] at ht
      cases ht

theorem dmLookup_eq_some_of_mem (dm : DataMap) (e : (Int × Nat) × IdxMap)
    (hnd : (dmKeys dm).Nodup) (he : e ∈ dm) : dmLookup dm e.1 = some e.2 := by
  induction dm with
  | nil => simp at he
  | cons p rest ih =>
    rcases List.mem_cons.mp he with h | h
    · subst h
      simp [dmLookup]
    · have hnd2 := hnd
      simp only [dmKeys, List.map_cons, List.nodup_cons] at hnd2
      have hne : ¬ p.1 = e.1 := by
        intro hh
        exact hnd2.1 (hh ▸ List.mem_map_of_mem Prod.fst h)
      have := ih (by simpa [dmKeys] using hnd2.2) h
      simpa [dmLookup, hne] using this

theorem mem_of_dmLookup_eq_some (dm : DataMap) (k : Int × Nat) (im : IdxMap)
    (h : dmLookup dm k = some im) : (k, im) ∈ dm := by
  induction dm with
  | nil => simp [dmLookup] at h
  | cons p rest ih =>
    obtain ⟨k2, im2⟩ := p
    by_cases hk : k2 = k
    · subst hk
      simp only [dmLookup, if_pos rfl] at h
      cases h
      exact List.mem_cons_self _ _
    · simp only [dmLookup, if_neg hk] at h
      exact List.mem_cons_of_mem _ (ih h)

theorem colPresent_iff (dm : DataMap) (c : String) (hnd : (dmKeys dm).Nodup) :
    colPresent dm c = true ↔
      (c = "Year" ∨ c = "Month" ∨ ∃ y m v, lookupVal dm y m c = some v) := by
  simp only [colPresent, Bool.or_eq_true, beq_iff_eq, List.any_eq_true,
    Option.isSome_iff_exists]
  constructor
  · intro h
    rcases h with (h | h) | ⟨e, he, v, hv⟩
    · exact Or.inl h
    · exact Or.inr (Or.inl h)
    · refine Or.inr (Or.inr ⟨e.1.1, e.1.2, v, ?_⟩)
      unfold lookupVal
      rw [show ((e.1.1, e.1.2) : Int × Nat) = e.1 from rfl,
        dmLookup_eq_some_of_mem dm e hnd he]
      simpa using hv
  · intro h
    rcases h with h | h | ⟨y, m, v, hv⟩
    · exact Or.inl (Or.inl h)
    · exact Or.inl (Or.inr h)
    · refine Or.inr ?_
      unfold lookupVal at hv
      cases hdm : dmLookup dm (y, m) with
      | none => rw [hdm] at hv; simp at hv
      | some im =>
        rw [hdm] at hv
        exact ⟨((y, m), im), mem_of_dmLookup_eq_some dm (y, m) im hdm, v, by simpa using hv⟩

theorem keys_of_rows (dm : DataMap) :
    (dm.map (fun e => Row.mk e.1.1 e.1.2 e.2)).map (fun r => (r.year, r.month)) =
      dmKeys dm := by
  rw [List.map_map]
  unfold dmKeys
  apply List.map_congr_left
  intro e _
  rfl

/-- C4: the canonical table built by `get_climate_indices` is strictly
ordered by `(Year, Month)` ascending (hence without duplicate keys),
and its column list is the fixed canonical order `Year, Month, ONI,
IOD, PDO, NinoWest, NAO, PNA, AO, QBO30, QBO50` restricted to `Year`,
`Month` and the indices holding at least one stored observation (empty
when no observation at all was stored). -/
theorem c4_table_invariants (fetches : List (Option String)) (start_year : Int) (c : String) :
    (get_climate_indices fetches start_year).rows.Pairwise
      (fun a b => a.year < b.year ∨ (a.year = b.year ∧ a.month < b.month)) ∧
    (get_climate_indices fetches start_year).cols.Sublist fixedCols ∧
    (c ∈ (get_climate_indices fetches start_year).cols ↔
      (ingest (sourceCfgs.zip fetches) start_year ≠ [] ∧ c ∈ fixedCols ∧
       (c = "Year" ∨ c = "Month" ∨
        ∃ y m v, lookupVal (ingest (sourceCfgs.zip fetches) start_year) y m c = some v))) := by
  unfold get_climate_indices toTable
  set dm := ingest (sourceCfgs.zip fetches) start_year with hdm
  have hnd : (dmKeys dm).Nodup := hdm ▸ nodup_dmKeys_ingest _ _
  by_cases hempty : dm.isEmpty
  · have hnil : dm = [] := List.isEmpty_iff.mp hempty
    rw [if_pos hempty]
    simp [hnil]
  · rw [if_neg hempty]
    have hne : dm ≠ [] := by
      intro hh
      rw [hh] at hempty
      exact hempty rfl
    refine ⟨?_, List.filter_sublist _, ?_⟩
    · have hle := pairwise_sortBy rowLe_trans rowLe_total
        (dm.map (fun e => Row.mk e.1.1 e.1.2 e.2))
      have hperm := (sortBy_perm rowLe (dm.map (fun e => Row.mk e.1.1 e.1.2 e.2))).map
        (fun r => (r.year, r.month))
      have hkeys : ((sortBy rowLe (dm.map (fun e => Row.mk e.1.1 e.1.2 e.2))).map
          (fun r => (r.year, r.month))).Nodup := by
        rw [keys_of_rows dm] at hperm
        exact hperm.nodup_iff.mpr hnd
      have hkeyne := List.pairwise_map.mp hkeys
      refine (hle.and hkeyne).imp ?_
      intro a b hab
      obtain ⟨h1, h2⟩ := hab
      simp only [rowLe, Bool.or_eq_true, Bool.and_eq_true, decide_eq_true_eq] at h1
      have h3 : ¬(a.year = b.year ∧ a.month = b.month) := by
        intro ⟨u, w⟩
        exact h2 (by rw [u, w])
      omega
    · rw [List.mem_filter, colPresent_iff dm c hnd]
      tauto

/-- Witness for C4: ONI fetched with two out-of-order year lines, NAO
failed. -/
theorem c4_table_invariants_witness :
    (get_climate_indices [some ("1961 0.5 1 1 1 1 1 1 1 1 1 1 1\n" ++ witOniText), none]
        1950).rows.Pairwise
      (fun a b => a.year < b.year ∨ (a.year = b.year ∧ a.month < b.month)) ∧
    (get_climate_indices [some ("1961 0.5 1 1 1 1 1 1 1 1 1 1 1\n" ++ witOniText), none]
        1950).cols.Sublist fixedCols ∧
    ("ONI" ∈ (get_climate_indices
        [some ("1961 0.5 1 1 1 1 1 1 1 1 1 1 1\n" ++ witOniText), none] 1950).cols ↔
      (ingest (sourceCfgs.zip
          [some ("1961 0.5 1 1 1 1 1 1 1 1 1 1 1\n" ++ witOniText), none]) 1950 ≠ [] ∧
       "ONI" ∈ fixedCols ∧
       ("ONI" = "Year" ∨ "ONI" = "Month" ∨
        ∃ y m v, lookupVal (ingest (sourceCfgs.zip
          [some ("1961 0.5 1 1 1 1 1 1 1 1 1 1 1\n" ++ witOniText), none]) 1950)
            y m "ONI" = some v))) :=
  c4_table_invariants [some ("1961 0.5 1 1 1 1 1 1 1 1 1 1 1\n" ++ witOniText), none]
    1950 "ONI"

/-! ## C5: line acceptance per source -/

theorem guard_psl_iff (parts : List String) :
    (!parts.isEmpty && isdigitStr (parts.headD "") && decide (13 ≤ parts.length)) = true ↔
      (parts ≠ [] ∧ isdigitStr (parts.headD "") = true ∧ 13 ≤ parts.length) := by
  simp [Bool.and_eq_true, Bool.not_eq_true', and_assoc, List.isEmpty_iff,
    Bool.eq_false_iff]

theorem guard_cpc_iff (parts : List String) :
    (!parts.isEmpty && isdigitStr (parts.headD "")) = true ↔
      (parts ≠ [] ∧ isdigitStr (parts.headD "") = true) := by
  simp [Bool.and_eq_true, Bool.not_eq_true', List.isEmpty_iff, Bool.eq_false_iff]

theorem mem_lineObsPsl (cfg : SourceCfg) (start : Int) (line : String) (o : Obs) :
    o ∈ lineObsPsl cfg start line ↔
      ∃ m v, splitWs line ≠ [] ∧ isdigitStr ((splitWs line).headD "") = true ∧
        13 ≤ (splitWs line).length ∧
        start ≤ ((digitsVal ((splitWs line).headD "").toList : Nat) : Int) ∧
        m ∈ monthNums ∧ parseFloat? ((splitWs line).getD m "") = some v ∧
        cfg.sentinel.keep v = true ∧
        o = ⟨((digitsVal ((splitWs line).headD "").toList : Nat) : Int), m, cfg.index, v⟩ := by
  simp only [lineObsPsl]
  constructor
  · intro h
    split at h
    · rename_i h1
      split at h
      · simp at h
      · rename_i h2
        obtain ⟨m, hm, hmm⟩ := List.mem_flatMap.mp h
        obtain ⟨v, hv, hkeep, rfl⟩ := (mem_monthObs ..).mp hmm
        obtain ⟨hne, hdig, hlen⟩ := (guard_psl_iff _).mp h1
        exact ⟨m, v, hne, hdig, hlen, not_lt.mp h2, hm, hv, hkeep, rfl⟩
    · simp at h
  · rintro ⟨m, v, hne, hdig, hlen, hstart, hm, hv, hkeep, rfl⟩
    rw [if_pos ((guard_psl_iff _).mpr ⟨hne, hdig, hlen⟩), if_neg (not_lt.mpr hstart)]
    exact List.mem_flatMap.mpr ⟨m, hm, (mem_monthObs ..).mpr ⟨v, hv, hkeep, rfl⟩⟩

theorem mem_lineObsCpc (cfg : SourceCfg) (start : Int) (line : String) (o : Obs) :
    o ∈ lineObsCpc cfg start line ↔
      ∃ m v, splitWs line ≠ [] ∧ isdigitStr ((splitWs line).headD "") = true ∧
        start ≤ ((digitsVal ((splitWs line).headD "").toList : Nat) : Int) ∧
        m ∈ monthNums ∧ m < (splitWs line).length ∧
        parseFloat? ((splitWs line).getD m "") = some v ∧
        cfg.sentinel.keep v = true ∧
        o = ⟨((digitsVal ((splitWs line).headD "").toList : Nat) : Int), m, cfg.index, v⟩ := by
  simp only [lineObsCpc]
  constructor
  · intro h
    split at h
    · rename_i h1
      split at h
      · simp at h
      · rename_i h2
        obtain ⟨m, hm, hmm⟩ := List.mem_flatMap.mp h
        split at hmm
        · rename_i hlt
          obtain ⟨v, hv, hkeep, rfl⟩ := (mem_monthObs ..).mp hmm
          obtain ⟨hne, hdig⟩ := (guard_cpc_iff _).mp h1
          exact ⟨m, v, hne, hdig, not_lt.mp h2, hm, hlt, hv, hkeep, rfl⟩
        · simp at hmm
    · simp at h
  · rintro ⟨m, v, hne, hdig, hstart, hm, hlt, hv, hkeep, rfl⟩
    rw [if_pos ((guard_cpc_iff _).mpr ⟨hne, hdig⟩), if_neg (not_lt.mpr hstart)]
    refine List.mem_flatMap.mpr ⟨m, hm, ?_⟩
    rw [if_pos hlt]
    exact (mem_monthObs ..).mpr ⟨v, hv, hkeep, rfl⟩

theorem nceiLinesObs_abort (cfg : SourceCfg) (start : Int) (badLine : String)
    (rest : List String)
    (hny : containsSeq "Year".toList badLine.toList = false)
    (hlen : 13 ≤ (splitWs badLine).length)
    (hbad : parseInt? ((splitWs badLine).headD "") = none) :
    nceiLinesObs cfg start (badLine :: rest) = [] := by
  simp only [nceiLinesObs]
  rw [if_neg (by rw [hny]; exact Bool.false_ne_true), if_pos (decide_eq_true hlen), hbad]

/-- C5 (amended): for the ONI/IOD sources, a line yields the
observation of month `m` iff it is nonempty, its first token is all
digits and names a year at or above the cutoff, the line has at least
13 tokens, and token `m` parses to a value passing the sentinel; a line
failing any condition yields nothing and parsing continues.  The
CPC-style sources (NinoWest, NAO, PNA, AO, QBO) impose no 13-token
minimum: any month position `m` that exists on the line contributes
independently under the same remaining conditions.  The PDO source
keeps its 13-token test, but a line with 13 tokens whose first token
does not parse as an integer aborts the remainder of that source. -/
theorem c5_line_acceptance (cfg : SourceCfg) (start : Int) (line badLine : String)
    (rest : List String) (o : Obs)
    (hny : containsSeq "Year".toList badLine.toList = false)
    (hlen : 13 ≤ (splitWs badLine).length)
    (hbad : parseInt? ((splitWs badLine).headD "") = none) :
    (o ∈ lineObsPsl cfg start line ↔
      ∃ m v, splitWs line ≠ [] ∧ isdigitStr ((splitWs line).headD "") = true ∧
        13 ≤ (splitWs line).length ∧
        start ≤ ((digitsVal ((splitWs line).headD "").toList : Nat) : Int) ∧
        m ∈ monthNums ∧ parseFloat? ((splitWs line).getD m "") = some v ∧
        cfg.sentinel.keep v = true ∧
        o = ⟨((digitsVal ((splitWs line).headD "").toList : Nat) : Int), m, cfg.index, v⟩) ∧
    (o ∈ lineObsCpc cfg start line ↔
      ∃ m v, splitWs line ≠ [] ∧ isdigitStr ((splitWs line).headD "") = true ∧
        start ≤ ((digitsVal ((splitWs line).headD "").toList : Nat) : Int) ∧
        m ∈ monthNums ∧ m < (splitWs line).length ∧
        parseFloat? ((splitWs line).getD m "") = some v ∧
        cfg.sentinel.keep v = true ∧
        o = ⟨((digitsVal ((splitWs line).headD "").toList : Nat) : Int), m, cfg.index, v⟩) ∧
    nceiLinesObs cfg start (badLine :: rest) = [] :=
  ⟨mem_lineObsPsl cfg start line o, mem_lineObsCpc cfg start line o,
   nceiLinesObs_abort cfg start badLine rest hny hlen hbad⟩

/-- A 13-token PDO-style line whose first token is not an integer. -/
def witBadLine : String := "X 1 2 3 4 5 6 7 8 9 10 11 12"

/-- Witness for C5 (amended), at the NAO source, the two-token line
`"1960 0.5"` and the aborting PDO line `witBadLine`. -/
theorem c5_line_acceptance_witness :
    (containsSeq "Year".toList witBadLine.toList = false) ∧
    (13 ≤ (splitWs witBadLine).length) ∧
    (parseInt? ((splitWs witBadLine).headD "") = none) ∧
    (((⟨1960, 1, "NAO", 1/2⟩ : Obs) ∈ lineObsPsl naoCfg 1950 "1960 0.5" ↔
      ∃ m v, splitWs "1960 0.5" ≠ [] ∧
        isdigitStr ((splitWs "1960 0.5").headD "") = true ∧
        13 ≤ (splitWs "1960 0.5").length ∧
        (1950 : Int) ≤ ((digitsVal ((splitWs "1960 0.5").headD "").toList : Nat) : Int) ∧
        m ∈ monthNums ∧ parseFloat? ((splitWs "1960 0.5").getD m "") = some v ∧
        naoCfg.sentinel.keep v = true ∧
        (⟨1960, 1, "NAO", 1/2⟩ : Obs) =
          ⟨((digitsVal ((splitWs "1960 0.5").headD "").toList : Nat) : Int), m,
            naoCfg.index, v⟩) ∧
     ((⟨1960, 1, "NAO", 1/2⟩ : Obs) ∈ lineObsCpc naoCfg 1950 "1960 0.5" ↔
      ∃ m v, splitWs "1960 0.5" ≠ [] ∧
        isdigitStr ((splitWs "1960 0.5").headD "") = true ∧
        (1950 : Int) ≤ ((digitsVal ((splitWs "1960 0.5").headD "").toList : Nat) : Int) ∧
        m ∈ monthNums ∧ m < (splitWs "1960 0.5").length ∧
        parseFloat? ((splitWs "1960 0.5").getD m "") = some v ∧
        naoCfg.sentinel.keep v = true ∧
        (⟨1960, 1, "NAO", 1/2⟩ : Obs) =
          ⟨((digitsVal ((splitWs "1960 0.5").headD "").toList : Nat) : Int), m,
            naoCfg.index, v⟩) ∧
     nceiLinesObs naoCfg 1950 (witBadLine :: ["1960 0.5"]) = []) :=
  ⟨by with_unfolding_all decide, by with_unfolding_all decide,
   by with_unfolding_all decide,
   c5_line_acceptance naoCfg 1950 "1960 0.5" witBadLine ["1960 0.5"] ⟨1960, 1, "NAO", 1/2⟩
     (by with_unfolding_all decide) (by with_unfolding_all decide)
     (by with_unfolding_all decide)⟩

/-- C5 counterexample: through the NAO source, the two-token line
`"1960 0.5"` (fewer than 13 tokens) contributes the observation
`NAO(1960, 1) = 0.5` to the canonical table, which the claim forbids. -/
theorem c5_counterexample :
    (splitWs "1960 0.5").length < 13 ∧
    (⟨1960, 1, "NAO", 1/2⟩ : Obs) ∈ sourceObs naoCfg 1950 "1960 0.5" ∧
    lookupVal (ingest [(naoCfg, some "1960 0.5")] 1950) 1960 1 "NAO" = some (1/2) :=
  ⟨by with_unfolding_all decide, by with_unfolding_all decide,
   by with_unfolding_all decide⟩

/-! ## C6: sentinel rules -/

/-- The amended per-source missing-value rule: a parsed value is
missing iff it is at or below −90 (ONI/IOD), at or above 90
(PDO/NinoWest), at or below −900 (QBO30/QBO50); NAO/PNA/AO have no
sentinel. -/
def sentinelMissing : Sentinel → ℚ → Prop
  | .gtNegNinety, v => v ≤ -90
  | .ltNinety, v => 90 ≤ v
  | .gtNegNineHundred, v => v ≤ -900
  | .noSentinel, _ => False

theorem keep_iff_not_missing (s : Sentinel) (v : ℚ) :
    s.keep v = true ↔ ¬ sentinelMissing s v := by
  cases s <;> simp [Sentinel.keep, sentinelMissing, not_le]

theorem lookupVal_foldl_not_written (os : List Obs) (dm : DataMap) (y : Int) (m : Nat)
    (idx : String)
    (h : ∀ o ∈ os, ¬(o.year = y ∧ o.month = m ∧ o.index = idx)) :
    lookupVal (os.foldl applyObs dm) y m idx = lookupVal dm y m idx := by
  induction os generalizing dm with
  | nil => rfl
  | cons o os ih =>
    rw [List.foldl_cons, ih _ (fun o' ho' => h o' (List.mem_cons_of_mem o ho')),
      applyObs, lookupVal_setIdx]
    have hc : ¬(y = o.year ∧ m = o.month ∧ idx = o.index) := by
      intro ⟨h1, h2, h3⟩
      exact h o (List.mem_cons_self o os) ⟨h1.symm, h2.symm, h3.symm⟩
    rw [if_neg hc]

theorem keep_nceiLinesObs (cfg : SourceCfg) (start : Int) (lines : List String) (o : Obs)
    (h : o ∈ nceiLinesObs cfg start lines) : cfg.sentinel.keep o.val = true := by
  induction lines with
  | nil => simp [nceiLinesObs] at h
  | cons line rest ih =>
    simp only [nceiLinesObs] at h
    split at h
    · exact ih h
    · split at h
      · split at h
        · simp at h
        · rcases List.mem_append.mp h with h | h
          · split at h
            · simp at h
            · obtain ⟨m, _, hm⟩ := List.mem_flatMap.mp h
              obtain ⟨v, _, hkeep, rfl⟩ := (mem_monthObs ..).mp hm
              exact hkeep
          · exact ih h
      · exact ih h

theorem keep_sourceObs (cfg : SourceCfg) (start : Int) (text : String) (o : Obs)
    (h : o ∈ sourceObs cfg start text) : cfg.sentinel.keep o.val = true := by
  obtain ⟨cidx, ckind, csent⟩ := cfg
  cases ckind with
  | psl =>
    simp only [sourceObs] at h
    obtain ⟨l, _, hl⟩ := List.mem_flatMap.mp h
    obtain ⟨m, v, _, _, _, _, _, _, hkeep, rfl⟩ := (mem_lineObsPsl ..).mp hl
    exact hkeep
  | ncei =>
    exact keep_nceiLinesObs _ _ _ _ h
  | cpc =>
    simp only [sourceObs] at h
    obtain ⟨l, _, hl⟩ := List.mem_flatMap.mp h
    obtain ⟨m, v, _, _, _, _, _, _, hkeep, rfl⟩ := (mem_lineObsCpc ..).mp hl
    exact hkeep
  | cpcPre =>
    simp only [sourceObs] at h
    cases hpre : preBlock? text with
    | none => rw [hpre] at h; simp at h
    | some body =>
      rw [hpre] at h
      obtain ⟨l, _, hl⟩ := List.mem_flatMap.mp h
      obtain ⟨m, v, _, _, _, _, _, _, hkeep, rfl⟩ := (mem_lineObsCpc ..).mp hl
      exact hkeep

/-- C6 (amended): a parsed month value is stored iff it does not match
the source's sentinel rule, the rules being: values at or below −90
missing for ONI/IOD, at or above 90 missing for PDO/NinoWest, at or
below −900 missing for QBO, none for NAO/PNA/AO.  Every stored
observation escapes its sentinel rule, the code's keep-test is exactly
the negation of the rule, and a cell nothing was stored into is absent
(`none`), never zero. -/
theorem c6_sentinel_rules (cfg : SourceCfg) (start : Int) (text : String) (o : Obs) (v : ℚ)
    (h : o ∈ sourceObs cfg start text) :
    ¬ sentinelMissing cfg.sentinel o.val ∧
    (cfg.sentinel.keep v = true ↔ ¬ sentinelMissing cfg.sentinel v) ∧
    (∀ y m idx, (∀ o' ∈ sourceObs cfg start text,
        ¬(o'.year = y ∧ o'.month = m ∧ o'.index = idx)) →
      lookupVal (ingest [(cfg, some text)] start) y m idx = none) := by
  refine ⟨(keep_iff_not_missing _ _).mp (keep_sourceObs cfg start text o h),
    keep_iff_not_missing cfg.sentinel v, ?_⟩
  intro y m idx hno
  unfold ingest
  rw [List.foldl_cons, List.foldl_nil]
  show lookupVal (parseSource cfg start (some text) []) y m idx = none
  unfold parseSource
  rw [lookupVal_foldl_not_written _ _ _ _ _ hno]
  rfl

/-- An ONI line whose January token sits exactly on the −90 boundary. -/
def oniBoundaryText : String :=
  "1960 -90.0 0.1 0.2 0.3 0.4 0.5 0.6 0.7 0.8 0.9 1.0 1.1"

/-- Witness for C6 at the ONI source and its first stored value. -/
theorem c6_sentinel_rules_witness :
    ((⟨1960, 2, "ONI", 1/10⟩ : Obs) ∈ sourceObs oniCfg 1950 oniBoundaryText) ∧
    (¬ sentinelMissing oniCfg.sentinel (⟨1960, 2, "ONI", 1/10⟩ : Obs).val ∧
     (oniCfg.sentinel.keep (-90) = true ↔ ¬ sentinelMissing oniCfg.sentinel (-90)) ∧
     (∀ y m idx, (∀ o' ∈ sourceObs oniCfg 1950 oniBoundaryText,
         ¬(o'.year = y ∧ o'.month = m ∧ o'.index = idx)) →
       lookupVal (ingest [(oniCfg, some oniBoundaryText)] 1950) y m idx = none)) :=
  ⟨by with_unfolding_all decide,
   c6_sentinel_rules oniCfg 1950 oniBoundaryText ⟨1960, 2, "ONI", 1/10⟩ (-90)
     (by with_unfolding_all decide)⟩

/-- C6 counterexample: the token `-90.0` parses to −90, which does not
match the claim's rule "values below −90 are missing", yet the ONI
cell for (1960, 1) stays absent — the code's keep-test `val > -90` is
strict, dropping the boundary value (while month 2 stores 0.1). -/
theorem c6_counterexample :
    parseFloat? "-90.0" = some (-90) ∧ ¬((-90 : ℚ) < (-90 : ℚ)) ∧
    lookupVal (ingest [(oniCfg, some oniBoundaryText)] 1950) 1960 1 "ONI" = none ∧
    lookupVal (ingest [(oniCfg, some oniBoundaryText)] 1950) 1960 2 "ONI" = some (1/10) :=
  ⟨by with_unfolding_all decide, by with_unfolding_all decide,
   by with_unfolding_all decide, by with_unfolding_all decide⟩

end ClimateAnalog
